import Mathlib

set_option maxHeartbeats 1000000

/-!
Verification of the euclid wasm binding layer
(`crates/euclid_wasm/src/lib.rs`) of the payment-routing decision core.

The binding layer is embedded shallowly.  The engine crates it calls
(`euclid`, `hyperswitch_constraint_graph`, `kgraph_utils`) are not part of
the visible sources; where one of their operations decides a property it is
modelled from the specification, and otherwise it is abstracted as a
parameter (e.g. the combined constraint graph is represented by its
`perform_context_analysis` verdict, which — called with a fresh memoization
cache — is a pure function of the conjunctive context).
-/

deriving instance DecidableEq for Except

namespace EuclidWasm

/-- A merchant connector choice: a routable connector name plus an optional
business sub-label (`ast::ConnectorChoice`, with the
`connector_choice_mca_id` feature disabled, as in the embedded code path). -/
structure ConnectorChoice where
  connector : String
  sub_label : Option String
deriving DecidableEq, Repr

/-- Modelled from the spec: `dir::DirValue` is a tagged union with one
variant per directory key; its full variant list is not under the visible
sources.  The binding code distinguishes only the `Connector` variant (the
value pushed during connector elimination); every other variant is modelled
uniformly as an owning key name together with a concrete value payload. -/
inductive DirValue where
  | Connector (choice : ConnectorChoice)
  | keyValue (key : String) (value : String)
deriving DecidableEq, Repr

/-- A conjunctive context: the ordered sequence of asserted `DirValue`s.
The binding layer only ever pushes plain assertions
(`ContextValue::assertion(choice, &dummy_meta)`), so the assertion kind and
the metadata map are not represented. -/
abbrev Ctx := List DirValue

/-- The process-wide seeded state (`SeedData`): the merchant's configured
connectors together with the combined constraint graph, the latter
abstracted by its `perform_context_analysis` verdict on a context (`true`
for success, `false` for an analysis error). -/
structure SeedData where
  connectors : List ConnectorChoice
  analysis : Ctx → Bool

/-- `ctx.push(ctx_val)`: append one assertion at the end of the context. -/
def ctxPush (ctx : Ctx) (v : DirValue) : Ctx := ctx ++ [v]

/-- `ctx.pop()`: remove the last assertion of the context. -/
def ctxPop (ctx : Ctx) : Ctx := ctx.dropLast

/-- State threaded through the connector-elimination loops of
`get_valid_connectors_for_rule`: the current conjunctive context, the set
of connectors already found invalid (a `HashSet`, modelled as a list with
membership as `contains`), and a ghost log recording every per-connector
analysis invocation (the analyzed context and the connector); the log does
not influence control flow. -/
structure ElimState where
  ctx : Ctx
  invalid : List ConnectorChoice
  checked : List (Ctx × ConnectorChoice)

/-- One iteration of the inner `for (conn, choice) in &valid_connectors`
loop (lines 151–167): skip a connector already marked invalid; otherwise
push the connector's `DirValue` onto the context, run the graph analysis,
mark the connector invalid if the analysis failed, and pop the context
regardless of the outcome. -/
def checkCandidate (analysis : Ctx → Bool) (st : ElimState)
    (cand : ConnectorChoice × DirValue) : ElimState :=
  if cand.1 ∈ st.invalid then st
  else
    let pushed := ctxPush st.ctx cand.2
    let ok := analysis pushed
    { ctx := ctxPop pushed
      invalid := if ok then st.invalid else cand.1 :: st.invalid
      checked := st.checked ++ [(pushed, cand.1)] }

/-- The whole inner loop over the merchant's connector candidates for one
conjunctive context. -/
def processContext (analysis : Ctx → Bool)
    (cands : List (ConnectorChoice × DirValue)) (st : ElimState) : ElimState :=
  cands.foldl (checkCandidate analysis) st

/-- The outer `while let Some(ctx) = ctx_manager.advance_mut()` loop (lines
138–168): for each expanded conjunctive context of the rule, first run the
standalone context analysis, propagating a failure with `?`; then run the
candidate loop, carrying the accumulated invalid set over to the next
context. -/
def elimLoop (analysis : Ctx → Bool)
    (cands : List (ConnectorChoice × DirValue)) :
    List Ctx → List ConnectorChoice → Except String (List ConnectorChoice)
  | [], invalid => .ok invalid
  | ctx :: rest, invalid =>
    if analysis ctx then
      elimLoop analysis cands rest
        (processContext analysis cands
          { ctx := ctx, invalid := invalid, checked := [] }).invalid
    else
      .error "context analysis failed"

/-- The candidate list built at lines 124–129: each configured connector
paired with its `DirValue::Connector` assertion value. -/
def candList (connectors : List ConnectorChoice) :
    List (ConnectorChoice × DirValue) :=
  connectors.map (fun c => (c, DirValue.Connector c))

/-- `get_valid_connectors_for_rule` (lines 119–176).  The seeded state is
passed explicitly in place of the `SEED_DATA` cell; the rule argument
stands for the result of deserializing and lowering the incoming rule: an
error, or the finite list of conjunctive contexts its
`RuleContextManager` emits. -/
def get_valid_connectors_for_rule (seed : Option SeedData)
    (rule : Except String (List Ctx)) : Except String (List ConnectorChoice) :=
  match seed with
  | none => .error "Data not seeded"
  | some sd =>
    match rule with
    | .error e => .error e
    | .ok ctxs =>
      match elimLoop sd.analysis (candList sd.connectors) ctxs [] with
      | .error e => .error e
      | .ok invalid =>
        .ok (((candList sd.connectors).filter
          (fun p => !(decide (p.1 ∈ invalid)))).map Prod.fst)

/-- The invalid-connector set accumulated by `elimLoop` after processing a
list of contexts, ignoring the standalone-analysis verdicts (pure version
of the loop state, used to talk about intermediate states of the run). -/
def invalidAfter (analysis : Ctx → Bool)
    (cands : List (ConnectorChoice × DirValue)) (ctxs : List Ctx)
    (invalid : List ConnectorChoice) : List ConnectorChoice :=
  ctxs.foldl
    (fun inv ctx =>
      (processContext analysis cands
        { ctx := ctx, invalid := inv, checked := [] }).invalid)
    invalid

/-- Modelled from the spec: the forex exchange-rate table is an opaque
immutable snapshot supplied at seeding time; only its identity matters to
the seeding and conversion interfaces. -/
structure ExchangeRates where
  rates : List (String × String × Int)
deriving DecidableEq, Repr

/-- A merchant connector account as consumed by `seed_knowledge_graph`:
the fields of `admin_api::MerchantConnectorResponse` the binding reads. -/
structure Mca where
  connector_name : String
  business_sub_label : Option String
deriving DecidableEq, Repr

/-- The connector-parsing step of `seed_knowledge_graph` (lines 82–93):
`RoutableConnectors::from_str` applied to every account's connector name
(abstracted as the `fromStr` parameter), the whole collection failing on
the first unknown name. -/
def parseConnectors (fromStr : String → Option String) :
    List Mca → Option (List ConnectorChoice)
  | [] => some []
  | m :: ms =>
    match fromStr m.connector_name with
    | none => none
    | some r =>
      match parseConnectors fromStr ms with
      | none => none
      | some rest => some (⟨r, m.business_sub_label⟩ :: rest)

/-- `seed_knowledge_graph` (lines 79–113) as a state transformer on the
`SEED_DATA` once-cell (modelled as an `Option`): deserialize the accounts,
parse the connector names, build the merchant graph and combine it with
the static analysis graph (both abstracted as `mkGraph`, returning the
combined graph's analysis verdict), and only then attempt to set the cell,
which fails — leaving the stored value untouched — when already filled. -/
def seed_knowledge_graph (fromStr : String → Option String)
    (mkGraph : List Mca → Except String (Ctx → Bool))
    (input : Except String (List Mca)) (seed : Option SeedData) :
    Option SeedData × Except String Unit :=
  match input with
  | .error e => (seed, .error e)
  | .ok mcas =>
    match parseConnectors fromStr mcas with
    | none => (seed, .error "invalid connector name received")
    | some connectors =>
      match mkGraph mcas with
      | .error e => (seed, .error e)
      | .ok g =>
        match seed with
        | some old => (some old, .error "Knowledge Graph has been already seeded")
        | none => (some ⟨connectors, g⟩, .ok ())

/-- `seed_forex` (lines 48–56) as a state transformer on the `SEED_FOREX`
once-cell: deserialize the table, then attempt to set the cell, which
fails — leaving the stored value untouched — when already filled. -/
def seed_forex (input : Except String ExchangeRates)
    (seed : Option ExchangeRates) :
    Option ExchangeRates × Except String Unit :=
  match input with
  | .error e => (seed, .error e)
  | .ok rates =>
    match seed with
    | some old => (some old, .error "Forex has already been seeded")
    | none => (some rates, .ok ())

/-- `convert_forex_value` (lines 62–74): check the `SEED_FOREX` cell first,
then deserialize the two currencies, then delegate to the
currency-conversion crate (abstracted as the `conv` parameter). -/
def convert_forex_value
    (conv : ExchangeRates → String → String → Int → Option Int)
    (seed : Option ExchangeRates) (amount : Int)
    (from_currency to_currency : Except String String) : Except String Int :=
  match seed with
  | none => .error "Forex Data not seeded"
  | some rates =>
    match from_currency with
    | .error e => .error e
    | .ok f =>
      match to_currency with
      | .error e => .error e
      | .ok t =>
        match conv rates f t amount with
        | none => .error "conversion not possible for provided values"
        | some v => .ok v

/-- Modelled from the spec: a rule guard condition of the interpreter
backend (§4.4, not under the visible sources) — `DirectoryValue` predicates
(equality, set-membership, negation) combined with conjunction and
disjunction.  Attributes and values are represented by their names. -/
inductive CondExpr where
  | isEq (key value : String)
  | isIn (key : String) (values : List String)
  | neg (e : CondExpr)
  | conj (l r : CondExpr)
  | disj (l r : CondExpr)
deriving DecidableEq, Repr

/-- Lookup of a concrete input attribute by key name. -/
def lookupAttr (input : List (String × String)) (key : String) :
    Option String :=
  match input with
  | [] => none
  | (k, v) :: rest => if k = key then some v else lookupAttr rest key

/-- Modelled from the spec: guard evaluation against the concrete input
(§4.4) — strict equality/membership per predicate, short-circuit boolean
semantics, and a missing required attribute failing the evaluation. -/
def evalCond (input : List (String × String)) : CondExpr → Except String Bool
  | .isEq key value =>
    match lookupAttr input key with
    | none => .error ("missing input attribute: " ++ key)
    | some x => .ok (x == value)
  | .isIn key values =>
    match lookupAttr input key with
    | none => .error ("missing input attribute: " ++ key)
    | some x => .ok (values.contains x)
  | .neg e =>
    match evalCond input e with
    | .error err => .error err
    | .ok b => .ok (!b)
  | .conj l r =>
    match evalCond input l with
    | .error err => .error err
    | .ok false => .ok false
    | .ok true => evalCond input r
  | .disj l r =>
    match evalCond input l with
    | .error err => .error err
    | .ok true => .ok true
    | .ok false => evalCond input r

/-- Modelled from the spec: one interpreter rule — a name, a guard and the
output selected when the guard matches (§3, `Rule<Output>`; a multi-branch
rule is a sequence of such guarded outputs). -/
structure IRule (O : Type) where
  name : String
  guard : CondExpr
  output : O
deriving DecidableEq, Repr

/-- Modelled from the spec: a program — a default output and an ordered
sequence of rules (§3, `Program<Output>`). -/
structure IProgram (O : Type) where
  default_selection : O
  rules : List (IRule O)
deriving DecidableEq, Repr

/-- Modelled from the spec: the interpreter's rule scan (§4.4) — evaluate
the rules in declared order, propagate a guard-evaluation error, return
the first matching rule's output, and fall back to the default when every
guard evaluates to false. -/
def execRules {O : Type} (input : List (String × String))
    (default_selection : O) : List (IRule O) → Except String O
  | [] => .ok default_selection
  | r :: rest =>
    match evalCond input r.guard with
    | .error e => .error e
    | .ok true => .ok r.output
    | .ok false => execRules input default_selection rest

/-- `run_program` (lines 186–196): deserialize program and input, build the
interpreter backend and execute it.  Deserialization is abstracted: the
program and input are received already decoded. -/
def run_program {O : Type} (p : IProgram O) (input : List (String × String)) :
    Except String O :=
  execRules input p.default_selection p.rules

/-- The specification's description of the interpreter result, written
from its words for comparison with `run_program`: the output of the first
rule whose guard is satisfied by the input, the program default when no
rule's guard is satisfied. -/
def firstSatisfiedOutput {O : Type} (input : List (String × String))
    (default_selection : O) : List (IRule O) → O
  | [] => default_selection
  | r :: rest =>
    if evalCond input r.guard = .ok true then r.output
    else firstSatisfiedOutput input default_selection rest

/-- Modelled from the spec: a rule guard as seen by context expansion
(§4.2) — atoms (asserted directory values, possibly negated predicates;
their precise shape is irrelevant to expansion, hence the type parameter)
combined with conjunction and disjunction; `always` is the empty,
always-true guard. -/
inductive Guard (α : Type) where
  | always
  | atom (a : α)
  | conj (l r : Guard α)
  | disj (l r : Guard α)
deriving DecidableEq, Repr

/-- Modelled from the spec: context expansion (§4.2,
`state_machine::RuleContextManager`, not under the visible sources) — the
finite sequence of conjunctive contexts of a guard, i.e. its disjunctive
normal form: each disjunct contributes its branches, conjunction takes the
pairwise concatenation of branches, and the empty guard has the single
empty context. -/
def expandGuard {α : Type} : Guard α → List (List α)
  | .always => [[]]
  | .atom a => [[a]]
  | .conj l r =>
    (expandGuard l).flatMap (fun c => (expandGuard r).map (fun d => c ++ d))
  | .disj l r => expandGuard l ++ expandGuard r

/-- A guard containing no disjunction. -/
def orFree {α : Type} : Guard α → Bool
  | .always => true
  | .atom _ => true
  | .conj l r => orFree l && orFree r
  | .disj _ _ => false

/-- The direct assertions of a guard, in order of appearance. -/
def directAssertions {α : Type} : Guard α → List α
  | .always => []
  | .atom a => [a]
  | .conj l r => directAssertions l ++ directAssertions r
  | .disj l r => directAssertions l ++ directAssertions r

/-- `dir::DirKey`: the closed vocabulary of routing-attribute keys.  The
variant list is taken from the exhaustive `match` in `get_variant_values`
(lines 241–271); the string form of each key is its variant identifier
(the binding relies on this only for `"Connector"`, which it filters by
that exact string). -/
inductive DirKey where
  | PaymentMethod
  | CardType
  | CardNetwork
  | PayLaterType
  | WalletType
  | BankRedirectType
  | CryptoType
  | RewardType
  | AuthenticationType
  | CaptureMethod
  | PaymentCurrency
  | BusinessCountry
  | BillingCountry
  | BankTransferType
  | UpiType
  | SetupFutureUsage
  | PaymentType
  | MandateType
  | MandateAcceptanceType
  | CardRedirectType
  | GiftCardType
  | VoucherType
  | BankDebitType
  | PaymentAmount
  | Connector
  | CardBin
  | BusinessLabel
  | MetaData
deriving DecidableEq, Repr

/-- The name table pairing each `DirKey` string form with its variant. -/
def dirKeyTable : List (String × DirKey) :=
  [("PaymentMethod", .PaymentMethod), ("CardType", .CardType),
   ("CardNetwork", .CardNetwork), ("PayLaterType", .PayLaterType),
   ("WalletType", .WalletType), ("BankRedirectType", .BankRedirectType),
   ("CryptoType", .CryptoType), ("RewardType", .RewardType),
   ("AuthenticationType", .AuthenticationType),
   ("CaptureMethod", .CaptureMethod), ("PaymentCurrency", .PaymentCurrency),
   ("BusinessCountry", .BusinessCountry), ("BillingCountry", .BillingCountry),
   ("BankTransferType", .BankTransferType), ("UpiType", .UpiType),
   ("SetupFutureUsage", .SetupFutureUsage), ("PaymentType", .PaymentType),
   ("MandateType", .MandateType),
   ("MandateAcceptanceType", .MandateAcceptanceType),
   ("CardRedirectType", .CardRedirectType), ("GiftCardType", .GiftCardType),
   ("VoucherType", .VoucherType), ("BankDebitType", .BankDebitType),
   ("PaymentAmount", .PaymentAmount), ("Connector", .Connector),
   ("CardBin", .CardBin), ("BusinessLabel", .BusinessLabel),
   ("MetaData", .MetaData)]

/-- `dir::DirKey::VARIANTS`: the string forms of all keys, in declaration
order. -/
def DirKey.VARIANTS : List String := dirKeyTable.map Prod.fst

/-- `dir::DirKey::from_str`: recognize a key by its string form. -/
def DirKey.from_str (s : String) : Option DirKey :=
  (dirKeyTable.find? (fun p => p.1 == s)).map Prod.snd

/-- `get_all_keys` (lines 203–211): all key names except `"Connector"`. -/
def get_all_keys : List String :=
  DirKey.VARIANTS.filter (fun s => !(s == "Connector"))

/-- `get_variant_values` (lines 237–274): recognize the key, then return
the variant names of its value enum (the per-key enum tables live in
`dir_enums`, not under the visible sources, and are abstracted as the
`enums` parameter); the keys `PaymentAmount`, `Connector`, `CardBin`,
`BusinessLabel` and `MetaData` have no variant list and produce an error. -/
def get_variant_values (enums : DirKey → List String) (key : String) :
    Except String (List String) :=
  match DirKey.from_str key with
  | none => .error "Invalid key received"
  | some DirKey.PaymentAmount | some DirKey.Connector | some DirKey.CardBin
  | some DirKey.BusinessLabel | some DirKey.MetaData =>
    .error "Key does not have variants"
  | some k => .ok (enums k)

/-- The recognized keys `get_variant_values` rejects with
`"Key does not have variants"`. -/
def noVariantKeys : List DirKey :=
  [.PaymentAmount, .Connector, .CardBin, .BusinessLabel, .MetaData]

/-- Recognize a list of key names in order, failing on the first unknown
one (the `from_str` loop of `get_description_category`). -/
def parseKeys : List String → Option (List DirKey)
  | [] => some []
  | s :: rest =>
    match DirKey.from_str s with
    | none => none
    | some k =>
      match parseKeys rest with
      | none => none
      | some ks => some (k :: ks)

/-- A key's tooling entry: its description and the key itself
(`types::Details`).  The description text comes from strum metadata not
under the visible sources, abstracted as a parameter. -/
structure Details where
  description : Option String
  kind : DirKey
deriving DecidableEq, Repr

/-- `get_description_category` (lines 281–302): iterate over all key names
except `"Connector"`, recognize each, and record its category (strum
`Category` property, abstracted as `cat`) with its details entry.  The
`HashMap` grouping is modelled as the flat association list of
(category, details) pairs in iteration order. -/
def get_description_category (descr : DirKey → Option String)
    (cat : DirKey → Option String) :
    Except String (List (Option String × Details)) :=
  match parseKeys get_all_keys with
  | none => .error "Invalid key received"
  | some ks => .ok (ks.map (fun k => (cat k, ⟨descr k, k⟩)))

/-- Concrete connector used to exercise the theorems on closed inputs. -/
def wStripe : ConnectorChoice := ⟨"stripe", none⟩

/-- Second concrete connector, rejected by the sample analysis verdict. -/
def wAdyen : ConnectorChoice := ⟨"adyen", none⟩

/-- Sample seeded state: two configured connectors and a graph verdict that
fails exactly when the second connector's assertion is in the context. -/
def wSd : SeedData :=
  ⟨[wStripe, wAdyen],
   fun ctx => !(decide (DirValue.Connector ⟨"adyen", none⟩ ∈ ctx))⟩

/-- Sample expanded contexts of a rule: the single conjunctive context
{Country = US, PaymentMethod = Card}. -/
def wCtxs : List Ctx :=
  [[DirValue.keyValue "BillingCountry" "US",
    DirValue.keyValue "PaymentMethod" "Card"]]

/-- Sample elimination state over the first sample context. -/
def wSt : ElimState :=
  ⟨[DirValue.keyValue "BillingCountry" "US"], [], []⟩

/-- Sample candidate pair. -/
def wCand : ConnectorChoice × DirValue := (wStripe, DirValue.Connector wStripe)

/-- Sample connector-name parser: recognizes only `"stripe"`. -/
def wFromStr : String → Option String :=
  fun s => if s == "stripe" then some "stripe" else none

/-- Sample graph builder: always succeeds with an all-accepting verdict. -/
def wMkGraph : List Mca → Except String (Ctx → Bool) :=
  fun _ => .ok (fun _ => true)

/-- Sample merchant connector account. -/
def wMca : Mca := ⟨"stripe", none⟩

/-- The seeded-cell contents after one successful seeding call. -/
def wSeeded : Option SeedData :=
  (seed_knowledge_graph wFromStr wMkGraph (.ok [wMca]) none).1

/-- Sample exchange-rate table. -/
def wRates : ExchangeRates := ⟨[("USD", "EUR", 92)]⟩

/-- Sample interpreter program: one rule `Country = US → "ConnectorA"`,
with default output `"ConnectorB"` (the spec's `run_program` example). -/
def wProgram : IProgram String :=
  ⟨"ConnectorB", [⟨"rule_1", CondExpr.isEq "Country" "US", "ConnectorA"⟩]⟩

/-- Sample input with `Country = CA`. -/
def wInputCA : List (String × String) := [("Country", "CA")]

/-- Sample input with `Country = US`. -/
def wInputUS : List (String × String) := [("Country", "US")]

/-- Sample OR-free guard: `Country=US AND PaymentMethod=Card`. -/
def wGuard : Guard String := .conj (.atom "Country=US") (.atom "PaymentMethod=Card")

end EuclidWasm

namespace EuclidWasm

theorem checkCandidate_ctx (A : Ctx → Bool) (st : ElimState)
    (cand : ConnectorChoice × DirValue) :
    (checkCandidate A st cand).ctx = st.ctx := by
  unfold checkCandidate
  by_cases h : cand.1 ∈ st.invalid
  · simp [h]
  · simp [h, ctxPush, ctxPop, List.dropLast_concat]

theorem processContext_ctx (A : Ctx → Bool)
    (cands : List (ConnectorChoice × DirValue)) (st : ElimState) :
    (processContext A cands st).ctx = st.ctx := by
  induction cands generalizing st with
  | nil => rfl
  | cons d rest ih =>
    simp only [processContext, List.foldl_cons] at *
    rw [ih (checkCandidate A st d), checkCandidate_ctx]

theorem checkCandidate_invalid_mono (A : Ctx → Bool) (st : ElimState)
    (cand : ConnectorChoice × DirValue) :
    st.invalid ⊆ (checkCandidate A st cand).invalid := by
  intro x hx
  unfold checkCandidate
  by_cases h : cand.1 ∈ st.invalid
  · simpa [h] using hx
  · by_cases h2 : A (ctxPush st.ctx cand.2)
    · simpa [h, h2] using hx
    · simp [h, h2]
      exact Or.inr hx

theorem mem_checkCandidate_invalid (A : Ctx → Bool) (st : ElimState)
    (cand : ConnectorChoice × DirValue) (c : ConnectorChoice) :
    c ∈ (checkCandidate A st cand).invalid ↔
      c ∈ st.invalid ∨
        (cand.1 ∉ st.invalid ∧ cand.1 = c ∧
          A (ctxPush st.ctx cand.2) = false) := by
  unfold checkCandidate
  by_cases h : cand.1 ∈ st.invalid
  · simp [h]
  · by_cases h2 : A (ctxPush st.ctx cand.2)
    · simp [h, h2]
    · simp only [Bool.not_eq_true] at h2
      simp [h, h2, List.mem_cons, eq_comm]
      tauto

theorem mem_processContext_invalid (A : Ctx → Bool)
    (cands : List (ConnectorChoice × DirValue)) (st : ElimState)
    (c : ConnectorChoice) :
    c ∈ (processContext A cands st).invalid ↔
      c ∈ st.invalid ∨
        ∃ d ∈ cands, d.1 = c ∧ A (ctxPush st.ctx d.2) = false := by
  induction cands generalizing st with
  | nil => simp [processContext]
  | cons d rest ih =>
    simp only [processContext] at *
    rw [List.foldl_cons, ih (checkCandidate A st d), checkCandidate_ctx,
      mem_checkCandidate_invalid]
    simp only [List.mem_cons]
    constructor
    · rintro ((hc | ⟨hni, heq, hf⟩) | ⟨e, he, heq, hf⟩)
      · exact Or.inl hc
      · exact Or.inr ⟨d, Or.inl rfl, heq, hf⟩
      · exact Or.inr ⟨e, Or.inr he, heq, hf⟩
    · rintro (hc | ⟨e, (rfl | he), heq, hf⟩)
      · exact Or.inl (Or.inl hc)
      · by_cases hd : e.1 ∈ st.invalid
        · exact Or.inl (Or.inl (heq ▸ hd))
        · exact Or.inl (Or.inr ⟨hd, heq, hf⟩)
      · exact Or.inr ⟨e, he, heq, hf⟩

theorem processContext_checked_not_invalid (A : Ctx → Bool)
    (cands : List (ConnectorChoice × DirValue)) (st : ElimState) :
    ∀ e ∈ (processContext A cands st).checked,
      e ∈ st.checked ∨ e.2 ∉ st.invalid := by
  induction cands generalizing st with
  | nil => intro e he; exact Or.inl he
  | cons d rest ih =>
    intro e he
    simp only [processContext, List.foldl_cons] at he
    rcases ih (checkCandidate A st d) e he with h | h
    · by_cases hd : d.1 ∈ st.invalid
      · simp only [checkCandidate, if_pos hd] at h
        exact Or.inl h
      · simp only [checkCandidate, if_neg hd, List.mem_append,
          List.mem_singleton] at h
        rcases h with h | h
        · exact Or.inl h
        · right
          rw [h]
          exact hd
    · right
      intro hc
      exact h (checkCandidate_invalid_mono A st d hc)

theorem processContext_checked_shape (A : Ctx → Bool)
    (cands : List (ConnectorChoice × DirValue)) (st : ElimState) :
    ∀ e ∈ (processContext A cands st).checked,
      e ∈ st.checked ∨ ∃ d ∈ cands, e = (ctxPush st.ctx d.2, d.1) := by
  induction cands generalizing st with
  | nil => intro e he; exact Or.inl he
  | cons d rest ih =>
    intro e he
    simp only [processContext, List.foldl_cons] at he
    rcases ih (checkCandidate A st d) e he with h | ⟨f, hf, heq⟩
    · by_cases hd : d.1 ∈ st.invalid
      · simp only [checkCandidate, if_pos hd] at h
        exact Or.inl h
      · simp only [checkCandidate, if_neg hd, List.mem_append,
          List.mem_singleton] at h
        rcases h with h | h
        · exact Or.inl h
        · exact Or.inr ⟨d, List.mem_cons_self d rest, h⟩
    · right
      refine ⟨f, List.mem_cons_of_mem d hf, ?_⟩
      rw [heq, checkCandidate_ctx]

theorem elimLoop_ok (A : Ctx → Bool) (cands : List (ConnectorChoice × DirValue))
    (ctxs : List Ctx) (I : List ConnectorChoice)
    (h : ∀ ctx ∈ ctxs, A ctx = true) :
    elimLoop A cands ctxs I = .ok (invalidAfter A cands ctxs I) := by
  induction ctxs generalizing I with
  | nil => rfl
  | cons ctx rest ih =>
    have h1 : A ctx = true := h ctx (List.mem_cons_self ctx rest)
    simp only [elimLoop, h1, if_true, invalidAfter, List.foldl_cons]
    exact ih _ (fun c hc => h c (List.mem_cons_of_mem ctx hc))

theorem elimLoop_error (A : Ctx → Bool)
    (cands : List (ConnectorChoice × DirValue)) (ctxs : List Ctx)
    (I : List ConnectorChoice) (h : ∃ ctx ∈ ctxs, A ctx = false) :
    elimLoop A cands ctxs I = .error "context analysis failed" := by
  induction ctxs generalizing I with
  | nil => simp at h
  | cons ctx rest ih =>
    by_cases hctx : A ctx = true
    · simp only [elimLoop, hctx, if_true]
      apply ih
      rcases h with ⟨c, hc, hf⟩
      rcases List.mem_cons.mp hc with h' | h'
      · rw [h'] at hf
        rw [hf] at hctx
        cases hctx
      · exact ⟨c, h', hf⟩
    · simp only [elimLoop]
      rw [if_neg hctx]

theorem mem_invalidAfter (A : Ctx → Bool)
    (cands : List (ConnectorChoice × DirValue)) (ctxs : List Ctx)
    (I : List ConnectorChoice) (c : ConnectorChoice) :
    c ∈ invalidAfter A cands ctxs I ↔
      c ∈ I ∨ ∃ ctx ∈ ctxs, ∃ d ∈ cands, d.1 = c ∧
        A (ctxPush ctx d.2) = false := by
  induction ctxs generalizing I with
  | nil => simp [invalidAfter]
  | cons ctx rest ih =>
    simp only [invalidAfter] at *
    rw [List.foldl_cons, ih, mem_processContext_invalid]
    simp only [List.mem_cons]
    constructor
    · rintro ((hI | ⟨d, hd, heq, hf⟩) | ⟨x, hx, hrest⟩)
      · exact Or.inl hI
      · exact Or.inr ⟨ctx, Or.inl rfl, d, hd, heq, hf⟩
      · exact Or.inr ⟨x, Or.inr hx, hrest⟩
    · rintro (hI | ⟨x, (rfl | hx), hrest⟩)
      · exact Or.inl (Or.inl hI)
      · exact Or.inl (Or.inr hrest)
      · exact Or.inr ⟨x, hx, hrest⟩

theorem invalidAfter_take_mono (A : Ctx → Bool)
    (cands : List (ConnectorChoice × DirValue)) (ctxs : List Ctx)
    (j k : Nat) (hjk : j ≤ k) (c : ConnectorChoice)
    (h : c ∈ invalidAfter A cands (ctxs.take j) []) :
    c ∈ invalidAfter A cands (ctxs.take k) [] := by
  rw [mem_invalidAfter] at h ⊢
  rcases h with h | ⟨ctx, hctx, hrest⟩
  · simp at h
  · refine Or.inr ⟨ctx, ?_, hrest⟩
    have heq : ctxs.take j = (ctxs.take k).take j := by
      rw [List.take_take, min_eq_left hjk]
    exact List.take_subset j (ctxs.take k) (heq ▸ hctx)

theorem mem_candList (connectors : List ConnectorChoice)
    (d : ConnectorChoice × DirValue) :
    d ∈ candList connectors ↔
      d.1 ∈ connectors ∧ d.2 = DirValue.Connector d.1 := by
  unfold candList
  rw [List.mem_map]
  constructor
  · rintro ⟨a, ha, rfl⟩
    exact ⟨ha, rfl⟩
  · rintro ⟨h1, h2⟩
    exact ⟨d.1, h1, by rw [← h2]⟩

theorem mem_invalidAfter_candList (sd : SeedData) (ctxs : List Ctx)
    (c : ConnectorChoice) (hc : c ∈ sd.connectors) :
    c ∈ invalidAfter sd.analysis (candList sd.connectors) ctxs [] ↔
      ∃ ctx ∈ ctxs, sd.analysis (ctxPush ctx (DirValue.Connector c)) = false := by
  rw [mem_invalidAfter]
  simp only [List.not_mem_nil, false_or]
  constructor
  · rintro ⟨ctx, hctx, d, hd, heq, hf⟩
    rcases (mem_candList sd.connectors d).mp hd with ⟨h1, h2⟩
    refine ⟨ctx, hctx, ?_⟩
    rw [← heq, ← h2] at *
    exact hf
  · rintro ⟨ctx, hctx, hf⟩
    exact ⟨ctx, hctx, (c, DirValue.Connector c),
      (mem_candList sd.connectors (c, DirValue.Connector c)).mpr ⟨hc, rfl⟩,
      rfl, hf⟩

theorem candList_filter_fst (l : List ConnectorChoice)
    (inv : List ConnectorChoice) :
    ((candList l).filter (fun p => !(decide (p.1 ∈ inv)))).map Prod.fst
      = l.filter (fun c => !(decide (c ∈ inv))) := by
  unfold candList
  rw [List.filter_map, List.map_map]
  have hid : (Prod.fst ∘ fun c : ConnectorChoice =>
      (c, DirValue.Connector c)) = id := rfl
  rw [hid, List.map_id]
  rfl

theorem get_valid_connectors_ok (sd : SeedData) (ctxs : List Ctx)
    (hok : ∀ ctx ∈ ctxs, sd.analysis ctx = true) :
    get_valid_connectors_for_rule (some sd) (.ok ctxs)
      = .ok (sd.connectors.filter
          (fun c => ctxs.all
            (fun ctx => sd.analysis (ctxPush ctx (DirValue.Connector c))))) := by
  have h1 := elimLoop_ok sd.analysis (candList sd.connectors) ctxs [] hok
  simp only [get_valid_connectors_for_rule, h1]
  rw [candList_filter_fst]
  congr 1
  apply List.filter_congr
  intro c hc
  have hiff := mem_invalidAfter_candList sd ctxs c hc
  cases hall : ctxs.all
      (fun ctx => sd.analysis (ctxPush ctx (DirValue.Connector c))) with
  | true =>
    rw [List.all_eq_true] at hall
    have hn : c ∉ invalidAfter sd.analysis (candList sd.connectors) ctxs [] := by
      rw [hiff]
      rintro ⟨ctx, hctx, hf⟩
      rw [hall ctx hctx] at hf
      cases hf
    simp [hn]
  | false =>
    rw [List.all_eq_false] at hall
    rcases hall with ⟨ctx, hctx, hf⟩
    simp only [Bool.not_eq_true] at hf
    have hm : c ∈ invalidAfter sd.analysis (candList sd.connectors) ctxs [] :=
      hiff.mpr ⟨ctx, hctx, hf⟩
    simp [hm]

/-- C1: for every rule (given by its expanded contexts, all of which pass
the standalone analysis) and every seeded configuration,
`get_valid_connectors_for_rule` returns exactly the merchant's configured
connectors minus every connector whose pushed `ConnectorChoice` assertion
makes the graph analysis fail for at least one expanded conjunctive
context; moreover a connector marked invalid after the first `j` contexts
is never analyzed again at any later context `k`. -/
theorem get_valid_connectors_exact_and_no_recheck (sd : SeedData)
    (ctxs : List Ctx) (hok : ∀ ctx ∈ ctxs, sd.analysis ctx = true) :
    get_valid_connectors_for_rule (some sd) (.ok ctxs)
      = .ok (sd.connectors.filter
          (fun c => ctxs.all
            (fun ctx => sd.analysis (ctxPush ctx (DirValue.Connector c)))))
    ∧ ∀ j k : Nat, j ≤ k → ∀ hk : k < ctxs.length, ∀ c : ConnectorChoice,
        c ∈ invalidAfter sd.analysis (candList sd.connectors) (ctxs.take j) [] →
        ∀ e ∈ (processContext sd.analysis (candList sd.connectors)
            { ctx := ctxs.get ⟨k, hk⟩,
              invalid := invalidAfter sd.analysis (candList sd.connectors)
                (ctxs.take k) [],
              checked := [] }).checked,
          e.2 ≠ c := by
  refine ⟨get_valid_connectors_ok sd ctxs hok, ?_⟩
  intro j k hjk hk c hcj e he
  have hck : c ∈ invalidAfter sd.analysis (candList sd.connectors)
      (ctxs.take k) [] :=
    invalidAfter_take_mono sd.analysis (candList sd.connectors) ctxs j k hjk c hcj
  rcases processContext_checked_not_invalid sd.analysis
      (candList sd.connectors) _ e he with h | h
  · cases h
  · intro h2
    rw [h2] at h
    exact h hck

/-- Closed instance of C1: two configured connectors, one single-context
rule; the connector the graph rejects is eliminated, the other kept. -/
theorem get_valid_connectors_exact_and_no_recheck_witness :
    (∀ ctx ∈ wCtxs, wSd.analysis ctx = true)
    ∧ get_valid_connectors_for_rule (some wSd) (.ok wCtxs)
        = .ok [⟨"stripe", none⟩] := by
  have h : ∀ ctx ∈ wCtxs, wSd.analysis ctx = true := by decide
  refine ⟨h, ?_⟩
  have h2 := (get_valid_connectors_exact_and_no_recheck wSd wCtxs h).1
  rw [h2]
  rfl

/-- C4: a standalone-analysis failure of some expanded context aborts
`get_valid_connectors_for_rule` with the analysis error, while
per-connector analysis failures are never surfaced: when every context
passes standalone the call returns `ok`, with each failing connector
merely removed from the candidate set. -/
theorem get_valid_connectors_error_policy (sd : SeedData) (ctxs : List Ctx) :
    ((∃ ctx ∈ ctxs, sd.analysis ctx = false) →
      get_valid_connectors_for_rule (some sd) (.ok ctxs)
        = .error "context analysis failed")
    ∧ ((∀ ctx ∈ ctxs, sd.analysis ctx = true) →
      ∃ l, get_valid_connectors_for_rule (some sd) (.ok ctxs) = .ok l
        ∧ ∀ c ∈ sd.connectors,
          (∃ ctx ∈ ctxs,
            sd.analysis (ctxPush ctx (DirValue.Connector c)) = false) →
          c ∉ l) := by
  constructor
  · intro h
    have h1 := elimLoop_error sd.analysis (candList sd.connectors) ctxs [] h
    simp only [get_valid_connectors_for_rule, h1]
  · intro hok
    refine ⟨_, get_valid_connectors_ok sd ctxs hok, ?_⟩
    rintro c hc ⟨ctx, hctx, hf⟩ hmem
    rcases List.mem_filter.mp hmem with ⟨_, hall⟩
    rw [List.all_eq_true] at hall
    rw [hall ctx hctx] at hf
    cases hf

/-- Closed instance of C4: a context carrying the rejected connector's
assertion fails standalone and aborts the call; the passing context keeps
the call successful while eliminating the rejected connector. -/
theorem get_valid_connectors_error_policy_witness :
    get_valid_connectors_for_rule (some wSd)
        (.ok [[DirValue.Connector ⟨"adyen", none⟩]])
      = .error "context analysis failed"
    ∧ ∃ l, get_valid_connectors_for_rule (some wSd) (.ok wCtxs) = .ok l
        ∧ ∀ c ∈ wSd.connectors,
          (∃ ctx ∈ wCtxs,
            wSd.analysis (ctxPush ctx (DirValue.Connector c)) = false) →
          c ∉ l := by
  constructor
  · exact (get_valid_connectors_error_policy wSd
      [[DirValue.Connector ⟨"adyen", none⟩]]).1 (by decide)
  · exact (get_valid_connectors_error_policy wSd wCtxs).2 (by decide)

/-- C5: each candidate check pushes the connector's assertion and pops it
again whatever the analysis verdict, so the context is identical before and
after every candidate check, the whole candidate loop leaves the context
unchanged, and every analysis call of the loop is made against the same
base context extended with just the checked candidate's own assertion. -/
theorem context_push_pop_balanced (A : Ctx → Bool) (st : ElimState)
    (cand : ConnectorChoice × DirValue)
    (cands : List (ConnectorChoice × DirValue)) :
    (checkCandidate A st cand).ctx = st.ctx
    ∧ (processContext A cands st).ctx = st.ctx
    ∧ ∀ e ∈ (processContext A cands st).checked,
        e ∈ st.checked ∨ ∃ d ∈ cands, e = (ctxPush st.ctx d.2, d.1) :=
  ⟨checkCandidate_ctx A st cand, processContext_ctx A cands st,
   processContext_checked_shape A cands st⟩

/-- Closed instance of C5 at the sample elimination state and candidates. -/
theorem context_push_pop_balanced_witness :
    (checkCandidate wSd.analysis wSt wCand).ctx = wSt.ctx
    ∧ (processContext wSd.analysis (candList wSd.connectors) wSt).ctx = wSt.ctx
    ∧ ∀ e ∈ (processContext wSd.analysis (candList wSd.connectors) wSt).checked,
        e ∈ wSt.checked
          ∨ ∃ d ∈ candList wSd.connectors, e = (ctxPush wSt.ctx d.2, d.1) :=
  context_push_pop_balanced wSd.analysis wSt wCand (candList wSd.connectors)

theorem seed_knowledge_graph_keeps_filled (fromStr : String → Option String)
    (mkGraph : List Mca → Except String (Ctx → Bool)) (d : SeedData)
    (input : Except String (List Mca)) :
    (seed_knowledge_graph fromStr mkGraph input (some d)).1 = some d := by
  rcases input with e | mcas
  · rfl
  · unfold seed_knowledge_graph
    rcases hps : parseConnectors fromStr mcas with _ | cs <;> simp [hps]
    rcases hg : mkGraph mcas with e2 | g2 <;> simp [hg]

theorem seed_forex_keeps_filled (r : ExchangeRates)
    (input : Except String ExchangeRates) :
    (seed_forex input (some r)).1 = some r := by
  rcases input with e | rates <;> rfl

/-- C3 counterexample: after a successful first seeding call, a second
seeding call is not always answered with the already-seeded error — a
second call whose input fails deserialization reports that failure instead
(while still leaving the installed data untouched). -/
theorem seed_second_call_not_always_already_seeded :
    (seed_knowledge_graph wFromStr wMkGraph (.ok [wMca]) none).2 = .ok ()
    ∧ (seed_knowledge_graph wFromStr wMkGraph
        (.error "malformed merchant connector payload") wSeeded).2
      = .error "malformed merchant connector payload"
    ∧ (seed_knowledge_graph wFromStr wMkGraph
        (.error "malformed merchant connector payload") wSeeded).2
      ≠ .error "Knowledge Graph has been already seeded"
    ∧ (seed_knowledge_graph wFromStr wMkGraph
        (.error "malformed merchant connector payload") wSeeded).1 = wSeeded :=
  ⟨rfl, rfl, by decide, rfl⟩

/-- C3 (amended): with data already installed, a second seeding call that
itself passes deserialization, connector-name parsing and graph
construction is rejected with the already-seeded error, and — whatever the
second call's input — the installed data is left unchanged; likewise the
second forex seeding is rejected and the installed table kept. -/
theorem seed_twice_rejected_data_preserved (d : SeedData)
    (fromStr : String → Option String)
    (mkGraph : List Mca → Except String (Ctx → Bool))
    (mcas : List Mca) (cs : List ConnectorChoice) (g : Ctx → Bool)
    (h1 : parseConnectors fromStr mcas = some cs)
    (h2 : mkGraph mcas = .ok g) (r f : ExchangeRates) :
    ((seed_knowledge_graph fromStr mkGraph (.ok mcas) (some d)).2
        = .error "Knowledge Graph has been already seeded"
      ∧ ∀ input, (seed_knowledge_graph fromStr mkGraph input (some d)).1 = some d)
    ∧ ((seed_forex (.ok f) (some r)).2 = .error "Forex has already been seeded"
      ∧ ∀ input, (seed_forex input (some r)).1 = some r) := by
  refine ⟨⟨?_, seed_knowledge_graph_keeps_filled fromStr mkGraph d⟩,
    rfl, seed_forex_keeps_filled r⟩
  unfold seed_knowledge_graph
  simp [h1, h2]

/-- Closed instance of the amended C3 at the sample configuration. -/
theorem seed_twice_rejected_data_preserved_witness :
    parseConnectors wFromStr [wMca] = some [wStripe]
    ∧ (((seed_knowledge_graph wFromStr wMkGraph (.ok [wMca]) (some wSd)).2
          = .error "Knowledge Graph has been already seeded"
        ∧ ∀ input,
            (seed_knowledge_graph wFromStr wMkGraph input (some wSd)).1 = some wSd)
      ∧ ((seed_forex (.ok wRates) (some wRates)).2
          = .error "Forex has already been seeded"
        ∧ ∀ input, (seed_forex input (some wRates)).1 = some wRates)) :=
  ⟨rfl, seed_twice_rejected_data_preserved wSd wFromStr wMkGraph [wMca]
    [wStripe] (fun _ => true) rfl rfl wRates wRates⟩

/-- C9: `seed_knowledge_graph` is atomic with respect to the seeded cell:
every failing call on the unseeded state leaves the cell unset, and a
subsequent call whose input deserializes, parses and builds its graph
successfully still succeeds and installs its data. -/
theorem seed_knowledge_graph_atomic (fromStr : String → Option String)
    (mkGraph : List Mca → Except String (Ctx → Bool))
    (input : Except String (List Mca)) :
    (∀ e, (seed_knowledge_graph fromStr mkGraph input none).2 = .error e →
      (seed_knowledge_graph fromStr mkGraph input none).1 = none)
    ∧ ∀ mcas cs g, input = .ok mcas →
        parseConnectors fromStr mcas = some cs → mkGraph mcas = .ok g →
        (seed_knowledge_graph fromStr mkGraph input none)
          = (some ⟨cs, g⟩, .ok ()) := by
  constructor
  · intro e he
    rcases input with e2 | mcas
    · rfl
    · unfold seed_knowledge_graph at *
      rcases hps : parseConnectors fromStr mcas with _ | cs <;> simp [hps]
      rcases hg : mkGraph mcas with e3 | g2 <;> simp [hg]
      simp [hps, hg] at he
  · rintro mcas cs g rfl hps hg
    unfold seed_knowledge_graph
    simp [hps, hg]

/-- Closed instance of C9: a malformed call leaves the cell unset, and a
following well-formed call installs its data. -/
theorem seed_knowledge_graph_atomic_witness :
    (seed_knowledge_graph wFromStr wMkGraph (.error "bad payload") none).1 = none
    ∧ (seed_knowledge_graph wFromStr wMkGraph (.ok [wMca]) none)
        = (some ⟨[wStripe], fun _ => true⟩, .ok ()) := by
  constructor
  · exact (seed_knowledge_graph_atomic wFromStr wMkGraph
      (.error "bad payload")).1 "bad payload" rfl
  · exact (seed_knowledge_graph_atomic wFromStr wMkGraph (.ok [wMca])).2
      [wMca] [wStripe] (fun _ => true) rfl rfl rfl

/-- C10: a seeded-state-dependent operation invoked before its seeding call
fails with the not-seeded error: `get_valid_connectors_for_rule` on the
unseeded graph cell, `convert_forex_value` on the unseeded forex cell. -/
theorem unseeded_operations_fail (rule : Except String (List Ctx))
    (conv : ExchangeRates → String → String → Int → Option Int)
    (amount : Int) (from_currency to_currency : Except String String) :
    get_valid_connectors_for_rule none rule = .error "Data not seeded"
    ∧ convert_forex_value conv none amount from_currency to_currency
        = .error "Forex Data not seeded" :=
  ⟨rfl, rfl⟩

/-- C2 counterexample: on an input lacking the attribute read by a rule's
guard, the interpreter fails the whole evaluation instead of treating the
rule as unmatched and returning the program's default output. -/
theorem run_program_missing_attribute_counterexample :
    (∀ r ∈ wProgram.rules, evalCond [] r.guard ≠ .ok true)
    ∧ run_program wProgram ([] : List (String × String))
        = .error "missing input attribute: Country"
    ∧ run_program wProgram ([] : List (String × String)) ≠ .ok "ConnectorB" :=
  ⟨by decide, rfl, by decide⟩

theorem execRules_first_match {O : Type} (input : List (String × String))
    (dft : O) (l : List (IRule O))
    (h : ∀ r ∈ l, (evalCond input r.guard).isOk = true) :
    execRules input dft l = .ok (firstSatisfiedOutput input dft l) := by
  induction l with
  | nil => rfl
  | cons r rest ih =>
    have hr := h r (List.mem_cons_self r rest)
    unfold execRules firstSatisfiedOutput
    rcases he : evalCond input r.guard with e | b
    · rw [he] at hr
      cases hr
    · cases b
      · simp only [he, Except.ok.injEq, Bool.false_eq_true, if_false]
        exact ih (fun r2 hr2 => h r2 (List.mem_cons_of_mem r hr2))
      · simp [he]

/-- C2 (amended): whenever every rule guard evaluates without error on the
input, `run_program` evaluates the rules in declared order and returns the
first satisfied rule's output, and the program's default output when no
guard is satisfied; an input missing an attribute referenced by a reached
guard instead fails the whole evaluation (see the counterexample). -/
theorem run_program_first_match {O : Type} (p : IProgram O)
    (input : List (String × String))
    (h : ∀ r ∈ p.rules, (evalCond input r.guard).isOk = true) :
    run_program p input
      = .ok (firstSatisfiedOutput input p.default_selection p.rules) :=
  execRules_first_match input p.default_selection p.rules h

/-- Closed instance of the amended C2: the spec's example — input
`Country = CA` falls through to the default output, input `Country = US`
selects the rule's output. -/
theorem run_program_first_match_witness :
    (∀ r ∈ wProgram.rules, (evalCond wInputCA r.guard).isOk = true)
    ∧ run_program wProgram wInputCA = .ok "ConnectorB"
    ∧ run_program wProgram wInputUS = .ok "ConnectorA" := by
  refine ⟨by decide, ?_, ?_⟩
  · rw [run_program_first_match wProgram wInputCA (by decide)]
    rfl
  · rw [run_program_first_match wProgram wInputUS (by decide)]
    rfl

theorem expandGuard_orFree {α : Type} :
    ∀ g : Guard α, orFree g = true → expandGuard g = [directAssertions g] := by
  intro g
  induction g with
  | always => intro _; rfl
  | atom a => intro _; rfl
  | conj l r ihl ihr =>
    intro h
    unfold orFree at h
    rw [Bool.and_eq_true] at h
    unfold expandGuard directAssertions
    rw [ihl h.1, ihr h.2]
    rfl
  | disj l r ihl ihr =>
    intro h
    simp [orFree] at h

/-- C6: an OR-free guard expands to exactly one conjunctive context, equal
to its direct assertions in order, and the empty (always-true) guard
expands to exactly one empty context. -/
theorem orFree_expansion_single {α : Type} (g : Guard α)
    (h : orFree g = true) :
    expandGuard g = [directAssertions g]
    ∧ expandGuard (Guard.always : Guard α) = [[]] :=
  ⟨expandGuard_orFree g h, rfl⟩

/-- Closed instance of C6 on the sample conjunctive guard. -/
theorem orFree_expansion_single_witness :
    orFree wGuard = true
    ∧ expandGuard wGuard = [directAssertions wGuard]
    ∧ expandGuard (Guard.always : Guard String) = [[]] :=
  ⟨rfl, (orFree_expansion_single wGuard rfl).1,
    (orFree_expansion_single wGuard rfl).2⟩

/-- C7 counterexample: `"PaymentAmount"` is a recognized key of the
vocabulary, yet `get_variant_values` fails on it with the no-variants
error — so value introspection can fail on a recognized key, not only on
an unrecognized identifier. -/
theorem recognized_key_without_variants :
    DirKey.from_str "PaymentAmount" = some DirKey.PaymentAmount
    ∧ get_variant_values (fun _ => []) "PaymentAmount"
        = .error "Key does not have variants"
    ∧ get_variant_values (fun _ => []) "PaymentAmount"
        ≠ .error "Invalid key received" :=
  ⟨rfl, rfl, by decide⟩

/-- C7 (amended): `get_variant_values` returns the key's variant list
exactly on recognized keys outside `noVariantKeys`; an unrecognized
identifier fails with the invalid-key error, and a recognized key among
`noVariantKeys` (`PaymentAmount`, `Connector`, `CardBin`, `BusinessLabel`,
`MetaData`) fails with the no-variants error. -/
theorem get_variant_values_characterization (enums : DirKey → List String)
    (key : String) :
    (DirKey.from_str key = none →
      get_variant_values enums key = .error "Invalid key received")
    ∧ (∀ k, DirKey.from_str key = some k → k ∉ noVariantKeys →
        get_variant_values enums key = .ok (enums k))
    ∧ (∀ k, DirKey.from_str key = some k → k ∈ noVariantKeys →
        get_variant_values enums key
          = .error "Key does not have variants") := by
  refine ⟨?_, ?_, ?_⟩
  · intro h
    unfold get_variant_values
    rw [h]
  · intro k hk hnk
    unfold get_variant_values
    rw [hk]
    cases k <;> first | rfl | exact absurd (by decide) hnk
  · intro k hk hmem
    unfold get_variant_values
    rw [hk]
    cases k <;> first | rfl | exact absurd hmem (by decide)

/-- Closed instance of the amended C7: a recognized enumerable key
succeeds, an unrecognized identifier fails with the invalid-key error. -/
theorem get_variant_values_characterization_witness :
    DirKey.from_str "PaymentMethod" = some DirKey.PaymentMethod
    ∧ DirKey.PaymentMethod ∉ noVariantKeys
    ∧ get_variant_values (fun _ => []) "PaymentMethod" = .ok []
    ∧ DirKey.from_str "NotAKey" = none
    ∧ get_variant_values (fun _ => []) "NotAKey"
        = .error "Invalid key received" := by
  refine ⟨rfl, by decide, ?_, rfl, ?_⟩
  · exact (get_variant_values_characterization (fun _ => []) "PaymentMethod").2.1
      DirKey.PaymentMethod rfl (by decide)
  · exact (get_variant_values_characterization (fun _ => []) "NotAKey").1 rfl

/-- C8: key-listing introspection never returns the `Connector` key:
`get_all_keys` omits `"Connector"` although it is a recognized key of the
vocabulary, and every entry produced by `get_description_category` is for
a key other than `Connector`. -/
theorem connector_key_never_listed (descr cat : DirKey → Option String) :
    ("Connector" ∉ get_all_keys ∧ "Connector" ∈ DirKey.VARIANTS
      ∧ DirKey.from_str "Connector" = some DirKey.Connector)
    ∧ ∃ l, get_description_category descr cat = .ok l
        ∧ ∀ p ∈ l, p.2.kind ≠ DirKey.Connector := by
  refine ⟨⟨by decide, by decide, rfl⟩, ?_⟩
  have hps : parseKeys get_all_keys
      = some [DirKey.PaymentMethod, DirKey.CardType, DirKey.CardNetwork,
        DirKey.PayLaterType, DirKey.WalletType, DirKey.BankRedirectType,
        DirKey.CryptoType, DirKey.RewardType, DirKey.AuthenticationType,
        DirKey.CaptureMethod, DirKey.PaymentCurrency, DirKey.BusinessCountry,
        DirKey.BillingCountry, DirKey.BankTransferType, DirKey.UpiType,
        DirKey.SetupFutureUsage, DirKey.PaymentType, DirKey.MandateType,
        DirKey.MandateAcceptanceType, DirKey.CardRedirectType,
        DirKey.GiftCardType, DirKey.VoucherType, DirKey.BankDebitType,
        DirKey.PaymentAmount, DirKey.CardBin, DirKey.BusinessLabel,
        DirKey.MetaData] := by rfl
  unfold get_description_category
  rw [hps]
  refine ⟨_, rfl, ?_⟩
  intro p hp
  rcases List.mem_map.mp hp with ⟨k, hk, rfl⟩
  intro hkc
  simp only [] at hkc
  rw [hkc] at hk
  exact absurd hk (by decide)

/-- Closed instance of C8 at trivial description and category tables. -/
theorem connector_key_never_listed_witness :
    ("Connector" ∉ get_all_keys ∧ "Connector" ∈ DirKey.VARIANTS
      ∧ DirKey.from_str "Connector" = some DirKey.Connector)
    ∧ ∃ l, get_description_category (fun _ => none) (fun _ => none) = .ok l
        ∧ ∀ p ∈ l, p.2.kind ≠ DirKey.Connector :=
  connector_key_never_listed (fun _ => none) (fun _ => none)

end EuclidWasm
